import Mathlib

/-!
Shallow embedding of `tools/dataset_converters/acdc.py`: the ACDC palette,
its inverse, the color-to-index conversion `ACDC_convert_from_color`, and the
directory-walking routine `process_annotations`.

An RGB annotation image (numpy `H×W×3` uint8 array) is embedded as a list of
rows, each row a list of RGB triples; a label map (numpy `H×W` uint8 array)
is a list of rows of natural numbers, the uint8 store modelled by `% 256`.
Well-formedness (all rows of one image have the same length) captures the
rectangularity that a numpy array has by construction.
-/

abbrev RGB := Nat × Nat × Nat

abbrev Image := List (List RGB)

abbrev LabelMap := List (List Nat)

/-- The `ACDC_palette` dict of `acdc.py` (class index → RGB list), in its
Python insertion order. -/
def ACDC_palette : List (Nat × List Nat) :=
  [(0, [0, 0, 0]), (1, [171, 171, 171]), (2, [114, 114, 114]), (3, [57, 57, 57])]

/-- Python `tuple(v)` for a 3-element RGB list. -/
def tupleOfList (v : List Nat) : RGB := (v.getD 0 0, v.getD 1 0, v.getD 2 0)

/-- Python dict insertion on an association list: an existing key is updated
in place (keeping its position), a new key is appended.  This reproduces the
iteration-order semantics of a Python dict comprehension. -/
def dictInsert (d : List (RGB × Nat)) (k : RGB) (v : Nat) : List (RGB × Nat) :=
  if d.any (fun p => p.1 == k) then
    d.map (fun p => if p.1 == k then (k, v) else p)
  else d ++ [(k, v)]

/-- Python dict lookup `d[k]` on an association list (None when absent). -/
def dictGet (d : List (RGB × Nat)) (k : RGB) : Option Nat :=
  (d.find? (fun p => p.1 == k)).map (fun p => p.2)

/-- `ACDC_invert_palette = {tuple(v): k for k, v in ACDC_palette.items()}`. -/
def ACDC_invert_palette : List (RGB × Nat) :=
  ACDC_palette.foldl (fun d kv => dictInsert d (tupleOfList kv.2) kv.1) []

/-- `np.zeros((h, w), dtype=np.uint8)`. -/
def zeros2d (h w : Nat) : LabelMap := List.replicate h (List.replicate w 0)

/-- Width `arr_3d.shape[1]` of an embedded image (length of its first row). -/
def imgWidth (arr : Image) : Nat := (arr.headD []).length

/-- A rectangular (numpy-shaped) image: every row has the common width. -/
def WellFormed (arr : Image) : Prop := ∀ r ∈ arr, r.length = imgWidth arr

instance (arr : Image) : Decidable (WellFormed arr) := by
  unfold WellFormed; infer_instance

/-- One loop body of `ACDC_convert_from_color`:
`mask = np.all(arr_3d == np.array(rgb).reshape(1, 1, 3), axis=2)` followed by
`arr_2d[mask] = class_id`.  Pixels exactly equal to `rgb` (per-channel
equality) receive `class_id` (stored into a uint8 array, hence `% 256`);
all other entries of `arr_2d` are kept. -/
def maskAssign (arr_3d : Image) (arr_2d : LabelMap) (rgb : RGB) (class_id : Nat) :
    LabelMap :=
  List.zipWith
    (fun row3 row2 =>
      List.zipWith (fun px v => if px = rgb then class_id % 256 else v) row3 row2)
    arr_3d arr_2d

/-- The state of the conversion loop: the (read-only) input array and the
output array being filled in. -/
structure ConvState where
  arr_3d : Image
  arr_2d : LabelMap
deriving Repr, DecidableEq

/-- One iteration of `for rgb, class_id in palette.items():` as a step on the
loop state. -/
def convStep (s : ConvState) (e : RGB × Nat) : ConvState :=
  ⟨s.arr_3d, maskAssign s.arr_3d s.arr_2d e.1 e.2⟩

/-- The whole loop of `ACDC_convert_from_color`, starting from the all-zero
`arr_2d` of the input's height and width. -/
def runConvert (arr_3d : Image) (palette : List (RGB × Nat)) : ConvState :=
  palette.foldl convStep ⟨arr_3d, zeros2d arr_3d.length (imgWidth arr_3d)⟩

/-- `ACDC_convert_from_color(arr_3d, palette=ACDC_invert_palette)`: the
`arr_2d` returned by the loop. -/
def ACDC_convert_from_color (arr_3d : Image)
    (palette : List (RGB × Nat) := ACDC_invert_palette) : LabelMap :=
  (runConvert arr_3d palette).arr_2d

/-- The value the loop leaves at one pixel: the fold of the palette entries,
last matching entry winning, default 0. -/
def pixelLabel (px : RGB) (palette : List (RGB × Nat)) : Nat :=
  palette.foldl (fun v e => if px = e.1 then e.2 % 256 else v) 0

/-- Element access `m[i][j]` as an option (None out of bounds). -/
def lmGet (m : List (List α)) (i j : Nat) : Option α :=
  (m[i]?).bind fun r => r[j]?

/-- The spec's 2×2 example input
`[[0,0,0],[171,171,171]],[[114,114,114],[9,9,9]]`. -/
def exampleImage : Image :=
  [[(0, 0, 0), (171, 171, 171)], [(114, 114, 114), (9, 9, 9)]]

/-- Python dict lookup on the forward palette (class index → RGB list). -/
def dictGetNat (d : List (Nat × List Nat)) (k : Nat) : Option (List Nat) :=
  (d.find? (fun p => p.1 == k)).map (fun p => p.2)

/-! ### Batch converter `process_annotations`

The filesystem effects are embedded as explicit data: the source directory
is the flat PNG listing of its `training/` and `validation/` subdirectories
(basename plus decoded RGB image, in listing order), and one run's writes
into fresh (initially empty) `train/` and `val/` output subdirectories are
collected as (output subdirectory, basename, written label map) triples. -/

/-- The source annotation directory as `process_annotations` observes it.
A missing or empty split subdirectory is the empty listing — exactly what
`glob.glob` returns for it. -/
structure SourceDir where
  training : List (String × Image)
  validation : List (String × Image)

/-- `glob.glob(osp.join(src_dir, mode, '*.png'))` for one of the two modes. -/
def splitFiles (src : SourceDir) (mode : String) : List (String × Image) :=
  if mode = "training" then src.training
  else if mode = "validation" then src.validation
  else []

/-- The loop of `process_annotations`: for each mode in
`['training', 'validation']` and each globbed file, read the image, convert
it with the default palette, and write the result under
`'train' if mode == 'training' else 'val'` with the same basename. -/
def process_annotations (src : SourceDir) : List (String × String × LabelMap) :=
  ["training", "validation"].foldl
    (fun writes mode =>
      (splitFiles src mode).foldl
        (fun ws file =>
          ws ++ [(if mode = "training" then "train" else "val", file.1,
            ACDC_convert_from_color file.2 ACDC_invert_palette)])
        writes)
    []

/-! ### Characterization of the conversion loop -/

/-- The inverse palette evaluates to the four (RGB, index) pairs in palette
order. -/
lemma ACDC_invert_palette_eval : ACDC_invert_palette =
    [((0, 0, 0), 0), ((171, 171, 171), 1), ((114, 114, 114), 2), ((57, 57, 57), 3)] := by
  decide

lemma zipWith_map_self (f : α → β → γ) (g : α → β) (l : List α) :
    List.zipWith f l (l.map g) = l.map (fun x => f x (g x)) := by
  induction l with
  | nil => rfl
  | cons x xs ih => simp [List.zipWith, ih]

lemma map_const_zero (l : List α) : l.map (fun _ => (0 : Nat)) = List.replicate l.length 0 := by
  induction l with
  | nil => rfl
  | cons x xs ih => simp [List.replicate, ih]

lemma maskAssign_map (arr : Image) (g : RGB → Nat) (rgb : RGB) (c : Nat) :
    maskAssign arr (arr.map fun row => row.map g) rgb c =
      arr.map fun row => row.map fun px => if px = rgb then c % 256 else g px := by
  unfold maskAssign
  rw [zipWith_map_self]
  refine List.map_congr_left fun row _ => ?_
  rw [zipWith_map_self]

/-- The input component of the loop state is never modified. -/
lemma foldl_convStep_arr3d (palette : List (RGB × Nat)) (s : ConvState) :
    (palette.foldl convStep s).arr_3d = s.arr_3d := by
  induction palette generalizing s with
  | nil => rfl
  | cons e es ih => simpa [convStep] using ih (convStep s e)

/-- On a rectangular image, the initial all-zero grid is the pointwise map
of the constant 0 over the image. -/
lemma zeros2d_eq_map (arr : Image) (hWF : WellFormed arr) :
    zeros2d arr.length (imgWidth arr) = arr.map fun row => row.map fun _ => 0 := by
  unfold zeros2d
  apply List.ext_getElem
  · simp
  · intro i h1 h2
    have hi : i < arr.length := by simpa using h2
    simp only [List.getElem_replicate, List.getElem_map]
    rw [map_const_zero, hWF (arr[i]) (arr.getElem_mem hi)]

/-- Running the loop from any pointwise-map accumulator folds the palette
into each pixel independently. -/
lemma foldl_convStep_map (arr : Image) (palette : List (RGB × Nat)) (g : RGB → Nat) :
    palette.foldl convStep ⟨arr, arr.map fun row => row.map g⟩ =
      ⟨arr, arr.map fun row => row.map fun px =>
        palette.foldl (fun v e => if px = e.1 then e.2 % 256 else v) (g px)⟩ := by
  induction palette generalizing g with
  | nil => rfl
  | cons e es ih =>
    rw [List.foldl_cons]
    have hstep : convStep ⟨arr, arr.map fun row => row.map g⟩ e =
        ⟨arr, arr.map fun row => row.map fun px => if px = e.1 then e.2 % 256 else g px⟩ := by
      simp [convStep, maskAssign_map]
    rw [hstep, ih]
    simp

/-- Pointwise characterization of `ACDC_convert_from_color` on rectangular
input: each output pixel is the palette fold of its input pixel. -/
lemma ACDC_convert_from_color_eq (arr : Image) (hWF : WellFormed arr)
    (palette : List (RGB × Nat)) :
    ACDC_convert_from_color arr palette =
      arr.map fun row => row.map fun px => pixelLabel px palette := by
  unfold ACDC_convert_from_color runConvert
  rw [zeros2d_eq_map arr hWF, foldl_convStep_map]
  rfl

lemma lmGet_map (m : List (List α)) (f : α → β) (i j : Nat) :
    lmGet (m.map fun row => row.map f) i j = (lmGet m i j).map f := by
  unfold lmGet
  rw [List.getElem?_map]
  cases m[i]? with
  | none => rfl
  | some r => simp [List.getElem?_map]

/-- A fold over palette entries none of which matches the pixel keeps the
accumulator. -/
lemma foldl_no_match (px : RGB) (palette : List (RGB × Nat)) (v : Nat)
    (h : ∀ e ∈ palette, e.1 ≠ px) :
    palette.foldl (fun v e => if px = e.1 then e.2 % 256 else v) v = v := by
  induction palette generalizing v with
  | nil => rfl
  | cons e es ih =>
    rw [List.foldl_cons, if_neg, ih]
    · intro f hf
      exact h f (List.mem_cons_of_mem e hf)
    · exact fun hc => h e (List.mem_cons_self e es) hc.symm

/-- A pixel matching no palette entry is left at the default 0. -/
lemma pixelLabel_no_match (px : RGB) (palette : List (RGB × Nat))
    (h : ∀ e ∈ palette, e.1 ≠ px) : pixelLabel px palette = 0 :=
  foldl_no_match px palette 0 h

/-! ### Claim theorems -/

/-- C1: for every RGB triple `c` mapped to class index `k` by
`ACDC_invert_palette`, every pixel of a rectangular input exactly equal to
`c` yields output value `k`; and the spec's 2×2 example converts to
`[[0,1],[2,0]]`. -/
theorem C1_exact_match (arr : Image) (hWF : WellFormed arr) (c : RGB) (k : Nat)
    (hmem : (c, k) ∈ ACDC_invert_palette) (i j : Nat)
    (hpx : lmGet arr i j = some c) :
    lmGet (ACDC_convert_from_color arr ACDC_invert_palette) i j = some k ∧
      ACDC_convert_from_color exampleImage = [[0, 1], [2, 0]] := by
  refine ⟨?_, by decide⟩
  rw [ACDC_convert_from_color_eq arr hWF, lmGet_map, hpx]
  rw [ACDC_invert_palette_eval] at hmem ⊢
  simp only [List.mem_cons, List.not_mem_nil, or_false, Prod.mk.injEq] at hmem
  rcases hmem with ⟨rfl, rfl⟩ | ⟨rfl, rfl⟩ | ⟨rfl, rfl⟩ | ⟨rfl, rfl⟩ <;> decide

theorem C1_witness :
    lmGet (ACDC_convert_from_color exampleImage ACDC_invert_palette) 0 1 = some 1 ∧
      ACDC_convert_from_color exampleImage = [[0, 1], [2, 0]] :=
  C1_exact_match exampleImage (by decide) (171, 171, 171) 1 (by decide) 0 1 (by decide)

/-- C2: a pixel whose RGB triple is no key of the palette argument is output
as 0, and an input with zero palette matches anywhere converts to the
all-zero grid of its height and width. -/
theorem C2_default_zero (arr : Image) (hWF : WellFormed arr)
    (palette : List (RGB × Nat)) :
    (∀ i j c, lmGet arr i j = some c → (∀ e ∈ palette, e.1 ≠ c) →
        lmGet (ACDC_convert_from_color arr palette) i j = some 0) ∧
      ((∀ r ∈ arr, ∀ px ∈ r, ∀ e ∈ palette, e.1 ≠ px) →
        ACDC_convert_from_color arr palette = zeros2d arr.length (imgWidth arr)) := by
  constructor
  · intro i j c hc hno
    rw [ACDC_convert_from_color_eq arr hWF, lmGet_map, hc]
    simp [pixelLabel_no_match c palette hno]
  · intro hall
    rw [ACDC_convert_from_color_eq arr hWF, zeros2d_eq_map arr hWF]
    refine List.map_congr_left fun row hrow => List.map_congr_left fun px hpx => ?_
    exact pixelLabel_no_match px palette (hall row hrow px hpx)

theorem C2_witness :
    lmGet (ACDC_convert_from_color exampleImage ACDC_invert_palette) 1 1 = some 0 ∧
      ACDC_convert_from_color [[(9, 9, 9), (10, 20, 30)]] ACDC_invert_palette =
        zeros2d 1 2 :=
  ⟨(C2_default_zero exampleImage (by decide) ACDC_invert_palette).1 1 1 (9, 9, 9)
      (by decide) (by decide),
    (C2_default_zero [[(9, 9, 9), (10, 20, 30)]] (by decide) ACDC_invert_palette).2
      (by decide)⟩

/-- C3: on a rectangular `H×W` input the output has exactly `H` rows, each of
width exactly `W`; its entries are scalar class indices (a 2-D single-channel
grid by the `LabelMap` type, not a 3-D array). -/
theorem C3_shape (arr : Image) (hWF : WellFormed arr) (palette : List (RGB × Nat)) :
    (ACDC_convert_from_color arr palette).length = arr.length ∧
      ∀ r ∈ ACDC_convert_from_color arr palette, r.length = imgWidth arr := by
  rw [ACDC_convert_from_color_eq arr hWF]
  refine ⟨by simp, fun r hr => ?_⟩
  simp only [List.mem_map] at hr
  obtain ⟨row, hrow, rfl⟩ := hr
  simpa using hWF row hrow

theorem C3_witness :
    (ACDC_convert_from_color exampleImage ACDC_invert_palette).length = 2 :=
  (C3_shape exampleImage (by decide) ACDC_invert_palette).1

/-- The per-pixel fold is invariant under permutation of a palette with
pairwise distinct color keys: at most one entry matches, so order is
irrelevant. -/
lemma foldl_pixel_perm (px : RGB) {l l' : List (RGB × Nat)}
    (h : List.Perm l l') (hd : l.Pairwise fun a b => a.1 ≠ b.1) :
    ∀ v, l.foldl (fun v e => if px = e.1 then e.2 % 256 else v) v =
      l'.foldl (fun v e => if px = e.1 then e.2 % 256 else v) v := by
  induction h with
  | nil => intro v; rfl
  | cons x h ih =>
    intro v
    rw [List.foldl_cons, List.foldl_cons]
    exact ih (List.pairwise_cons.mp hd).2 _
  | swap x y l =>
    intro v
    have hxy : y.1 ≠ x.1 := (List.pairwise_cons.mp hd).1 x (List.mem_cons_self x l)
    rw [List.foldl_cons, List.foldl_cons, List.foldl_cons, List.foldl_cons]
    suffices hacc : (if px = x.1 then x.2 % 256 else if px = y.1 then y.2 % 256 else v) =
        (if px = y.1 then y.2 % 256 else if px = x.1 then x.2 % 256 else v) by rw [hacc]
    by_cases h1 : px = x.1 <;> by_cases h2 : px = y.1
    · exact absurd (h2.symm.trans h1) hxy
    · simp [h1, h2, hxy, hxy.symm]
    · simp [h1, h2, hxy, hxy.symm]
    · simp [h1, h2]
  | trans h1 h2 ih1 ih2 =>
    intro v
    have hd2 := (h1.pairwise_iff (fun hab => Ne.symm hab)).mp hd
    rw [ih1 hd v, ih2 hd2 v]

lemma pixelLabel_perm (px : RGB) {l l' : List (RGB × Nat)}
    (h : List.Perm l l') (hd : l.Pairwise fun a b => a.1 ≠ b.1) :
    pixelLabel px l = pixelLabel px l' :=
  foldl_pixel_perm px h hd 0

/-- C4: for a palette with pairwise distinct RGB keys, applying the entries
in any permutation of their order yields the same label map. -/
theorem C4_order_invariance (arr : Image) (hWF : WellFormed arr)
    (palette palette' : List (RGB × Nat))
    (hd : palette.Pairwise fun a b => a.1 ≠ b.1)
    (hp : List.Perm palette palette') :
    ACDC_convert_from_color arr palette = ACDC_convert_from_color arr palette' := by
  rw [ACDC_convert_from_color_eq arr hWF, ACDC_convert_from_color_eq arr hWF]
  exact List.map_congr_left fun row _ =>
    List.map_congr_left fun px _ => pixelLabel_perm px hp hd

theorem C4_witness :
    ACDC_convert_from_color exampleImage ACDC_invert_palette =
      ACDC_convert_from_color exampleImage (ACDC_invert_palette.reverse) :=
  C4_order_invariance exampleImage (by decide) ACDC_invert_palette
    (ACDC_invert_palette.reverse) (by decide) (ACDC_invert_palette.reverse_perm).symm

/-- C5: the 4-entry ACDC palette is bijective: its four RGB triples are
pairwise distinct, the inverse mapping contains exactly four entries and the
round trip `ACDC_invert_palette[tuple(ACDC_palette[k])] = k` holds for every
class index k in {0,1,2,3}. -/
theorem C5_palette_bijective :
    (ACDC_palette.map fun kv => tupleOfList kv.2).Pairwise (· ≠ ·) ∧
      dictGet ACDC_invert_palette (tupleOfList ((dictGetNat ACDC_palette 0).getD [])) =
        some 0 ∧
      dictGet ACDC_invert_palette (tupleOfList ((dictGetNat ACDC_palette 1).getD [])) =
        some 1 ∧
      dictGet ACDC_invert_palette (tupleOfList ((dictGetNat ACDC_palette 2).getD [])) =
        some 2 ∧
      dictGet ACDC_invert_palette (tupleOfList ((dictGetNat ACDC_palette 3).getD [])) =
        some 3 ∧
      ACDC_invert_palette.length = 4 := by
  decide

/-- Every pixel's label under the default palette is one of the four class
indices. -/
lemma pixelLabel_default_mem (px : RGB) :
    pixelLabel px ACDC_invert_palette ∈ ([0, 1, 2, 3] : List Nat) := by
  rw [ACDC_invert_palette_eval]
  simp only [pixelLabel, List.foldl_cons, List.foldl_nil]
  split_ifs <;> decide

/-- C8: every value of a label map produced with the default ACDC palette is
in {0,1,2,3}, hence fits in a single uint8 byte. -/
theorem C8_value_range (arr : Image) (hWF : WellFormed arr) :
    ∀ r ∈ ACDC_convert_from_color arr ACDC_invert_palette,
      ∀ v ∈ r, v ∈ ([0, 1, 2, 3] : List Nat) ∧ v < 256 := by
  rw [ACDC_convert_from_color_eq arr hWF]
  intro r hr v hv
  simp only [List.mem_map] at hr
  obtain ⟨row, _, rfl⟩ := hr
  simp only [List.mem_map] at hv
  obtain ⟨px, _, rfl⟩ := hv
  refine ⟨pixelLabel_default_mem px, ?_⟩
  have h := pixelLabel_default_mem px
  simp only [List.mem_cons, List.not_mem_nil, or_false] at h
  rcases h with h | h | h | h <;> omega

theorem C8_witness :
    (2 : Nat) ∈ ([0, 1, 2, 3] : List Nat) ∧ (2 : Nat) < 256 :=
  C8_value_range exampleImage (by decide) [2, 0] (by decide) 2 (by decide)

/-- C9: the conversion loop never modifies the input array: the `arr_3d`
component of the final loop state is the input itself, and the returned
label map is a fresh grid built from `zeros2d`, not aliasing the input. -/
theorem C9_input_unchanged (arr : Image) (palette : List (RGB × Nat)) :
    (runConvert arr palette).arr_3d = arr ∧
      ACDC_convert_from_color arr palette = (runConvert arr palette).arr_2d :=
  ⟨foldl_convStep_arr3d palette _, rfl⟩

/-- C10: on a degenerate input of zero height or zero width the conversion
returns the empty label map of the same shape, and every masked assignment
of the loop is a no-op on the initial zero grid. -/
theorem C10_degenerate (arr : Image) (hWF : WellFormed arr)
    (hw : imgWidth arr = 0) (palette : List (RGB × Nat)) :
    ACDC_convert_from_color arr palette = List.replicate arr.length [] ∧
      ∀ rgb cid, maskAssign arr (zeros2d arr.length (imgWidth arr)) rgb cid =
        zeros2d arr.length (imgWidth arr) := by
  constructor
  · rw [ACDC_convert_from_color_eq arr hWF]
    rw [List.eq_replicate_iff]
    refine ⟨by simp, fun b hb => ?_⟩
    simp only [List.mem_map] at hb
    obtain ⟨row, hrow, rfl⟩ := hb
    have : row.length = 0 := by rw [hWF row hrow, hw]
    rw [List.length_eq_zero.mp this]
    rfl
  · intro rgb cid
    rw [hw]
    apply List.ext_getElem
    · simp [maskAssign, zeros2d]
    · intro i h1 h2
      simp [maskAssign, zeros2d, List.getElem_zipWith]

lemma foldl_append_singleton (g : α → β) (l : List α) (ws : List β) :
    l.foldl (fun ws f => ws ++ [g f]) ws = ws ++ l.map g := by
  induction l generalizing ws with
  | nil => simp
  | cons x xs ih => simp [ih]

/-- One run writes exactly the converted training files into `train/` then
the converted validation files into `val/`, keeping basenames. -/
lemma process_annotations_eq (src : SourceDir) :
    process_annotations src =
      (src.training.map fun f =>
          ("train", f.1, ACDC_convert_from_color f.2 ACDC_invert_palette)) ++
        src.validation.map fun f =>
          ("val", f.1, ACDC_convert_from_color f.2 ACDC_invert_palette) := by
  unfold process_annotations
  simp [splitFiles, foldl_append_singleton]

theorem C10_witness :
    ACDC_convert_from_color ([[], []] : Image) ACDC_invert_palette =
        List.replicate 2 [] ∧
      maskAssign ([[], []] : Image) (zeros2d 2 0) (0, 0, 0) 1 = zeros2d 2 0 :=
  ⟨(C10_degenerate ([[], []] : Image) (by decide) (by decide) ACDC_invert_palette).1,
    (C10_degenerate ([[], []] : Image) (by decide) (by decide) ACDC_invert_palette).2
      (0, 0, 0) 1⟩

/-- C6: a run over N training PNGs and M validation PNGs writes exactly N
files into `train/` and exactly M into `val/`, each keeping the basename of
the source file it was produced from. -/
theorem C6_file_counts (src : SourceDir) :
    ((process_annotations src).filter fun w => w.1 == "train").length =
        src.training.length ∧
      ((process_annotations src).filter fun w => w.1 == "val").length =
        src.validation.length ∧
      (((process_annotations src).filter fun w => w.1 == "train").map fun w => w.2.1) =
        (src.training.map fun f => f.1) ∧
      (((process_annotations src).filter fun w => w.1 == "val").map fun w => w.2.1) =
        (src.validation.map fun f => f.1) := by
  rw [process_annotations_eq]
  simp [List.filter_append, List.filter_map, Function.comp_def]

/-- C7: an empty (or missing, hence globbed empty) validation split writes
zero files into `val/` and the run still completes, producing exactly the
converted training files. -/
theorem C7_empty_split (src : SourceDir) (h : src.validation = []) :
    ((process_annotations src).filter fun w => w.1 == "val") = [] ∧
      process_annotations src =
        src.training.map fun f =>
          ("train", f.1, ACDC_convert_from_color f.2 ACDC_invert_palette) := by
  rw [process_annotations_eq, h]
  simp [List.filter_append, List.filter_map, Function.comp_def]

theorem C7_witness :
    ((process_annotations ⟨[("patient001.png", exampleImage)], []⟩).filter
        fun w => w.1 == "val") = [] ∧
      process_annotations ⟨[("patient001.png", exampleImage)], []⟩ =
        [("train", "patient001.png",
          ACDC_convert_from_color exampleImage ACDC_invert_palette)] :=
  C7_empty_split ⟨[("patient001.png", exampleImage)], []⟩ rfl
